import Mathlib

/-!
Verification of the QCMV3 quiz-authoring application.

The TypeScript sources are shallowly embedded.  Strings are lists of
characters.  The response parser of `services/geminiService.ts`
(markdown-fence stripping, LaTeX backslash doubling, JSON parsing and the
mapping into question records) is modelled by executable functions, and
the React state updaters of the application component and of the question
editor card are modelled as pure state transformers.
-/

/-- ASCII letter class of the regex character class a-zA-Z. -/
def isAsciiLetter (c : Char) : Bool :=
  ('a' ≤ c ∧ c ≤ 'z') ∨ ('A' ≤ c ∧ c ≤ 'Z')

/-- The LaTeX-repair replacement of `parseGeneratedQuiz`
(`geminiService.ts`, line 38): a global regex replace that rewrites a
backslash followed by a maximal run of two or more ASCII letters into a
doubled backslash followed by that run, scanning left to right and
leaving every other character unchanged.  The regex resumes after the
letter run; since a letter never starts a match, resuming at the run and
copying its letters one by one is the same function, and keeps the
recursion structural. -/
def doubleBackslashes : List Char → List Char
  | [] => []
  | c :: rest =>
    if c = '\\' ∧ 2 ≤ (rest.takeWhile isAsciiLetter).length then
      '\\' :: '\\' :: doubleBackslashes rest
    else
      c :: doubleBackslashes rest

lemma doubleBackslashes_all_letters (ls rest : List Char)
    (h : ∀ c ∈ ls, isAsciiLetter c = true) :
    doubleBackslashes (ls ++ rest) = ls ++ doubleBackslashes rest := by
  induction ls with
  | nil => rfl
  | cons a as ih =>
    have ha : isAsciiLetter a = true := h a (by simp)
    have hne : ¬ a = '\\' := by
      intro he
      rw [he] at ha
      simp [isAsciiLetter] at ha
    simp only [List.cons_append]
    rw [doubleBackslashes]
    simp only [hne, false_and, if_false]
    rw [ih (fun c hc => h c (by simp [hc]))]

lemma takeWhile_append_of_forall (p : Char → Bool) (ls rest : List Char)
    (h1 : ∀ c ∈ ls, p c = true) (h2 : ∀ c, rest.head? = some c → p c = false) :
    (ls ++ rest).takeWhile p = ls := by
  induction ls with
  | nil =>
    cases rest with
    | nil => rfl
    | cons r t => simp [List.takeWhile_cons, h2 r rfl]
  | cons a as ih =>
    simp only [List.cons_append, List.takeWhile_cons, h1 a (by simp), if_true]
    rw [ih (fun c hc => h1 c (by simp [hc]))]

lemma dropWhile_append_of_forall (p : Char → Bool) (ls rest : List Char)
    (h1 : ∀ c ∈ ls, p c = true) (h2 : ∀ c, rest.head? = some c → p c = false) :
    (ls ++ rest).dropWhile p = rest := by
  induction ls with
  | nil =>
    cases rest with
    | nil => rfl
    | cons r t => simp [List.dropWhile_cons, h2 r rfl]
  | cons a as ih =>
    simp only [List.cons_append, List.dropWhile_cons, h1 a (by simp), if_true]
    exact ih (fun c hc => h1 c (by simp [hc]))

/-- Claim C2: the LaTeX-escaping heuristic doubles backslashes.  A
character other than a backslash is copied unchanged; a backslash
followed by a maximal run of at least two ASCII letters is doubled and
the letters are kept verbatim; a backslash followed by fewer than two
letters is copied unchanged, every other character of the string being
left to the remaining scan. -/
theorem c2_backslash_doubling :
    (∀ (c : Char) (s : List Char), ¬ c = '\\' →
        doubleBackslashes (c :: s) = c :: doubleBackslashes s) ∧
    (∀ (ls rest : List Char), (∀ c ∈ ls, isAsciiLetter c = true) → 2 ≤ ls.length →
        (∀ c, rest.head? = some c → isAsciiLetter c = false) →
        doubleBackslashes ('\\' :: (ls ++ rest)) =
          '\\' :: '\\' :: (ls ++ doubleBackslashes rest)) ∧
    (∀ (s : List Char), (s.takeWhile isAsciiLetter).length < 2 →
        doubleBackslashes ('\\' :: s) = '\\' :: doubleBackslashes s) := by
  refine ⟨?_, ?_, ?_⟩
  · intro c s h
    rw [doubleBackslashes]
    simp [h]
  · intro ls rest h1 h2 h3
    rw [doubleBackslashes]
    rw [takeWhile_append_of_forall _ _ _ h1 h3]
    simp only [h2, and_true, true_and, if_pos rfl, if_true, eq_self_iff_true]
    rw [doubleBackslashes_all_letters ls rest h1]
  · intro s h
    rw [doubleBackslashes]
    simp [Nat.not_le_of_lt h]

/-- Witness for C2: the three cases of `c2_backslash_doubling` evaluated
on concrete inputs, among them the LaTeX command backslash-alpha. -/
theorem c2_backslash_doubling_witness :
    doubleBackslashes ('x' :: ('\\' :: 'a' :: 'b' :: [])) =
      'x' :: doubleBackslashes ('\\' :: 'a' :: 'b' :: []) ∧
    doubleBackslashes ('\\' :: (('a' :: 'b' :: []) ++ (']' :: []))) =
      '\\' :: '\\' :: (('a' :: 'b' :: []) ++ doubleBackslashes (']' :: [])) ∧
    doubleBackslashes ('\\' :: ('n' :: '1' :: [])) =
      '\\' :: doubleBackslashes ('n' :: '1' :: []) :=
  ⟨c2_backslash_doubling.1 'x' _ (by decide),
   c2_backslash_doubling.2.1 ('a' :: 'b' :: []) (']' :: [])
     (by decide) (by decide) (by intro c hc; cases hc; decide),
   c2_backslash_doubling.2.2 ('n' :: '1' :: []) (by decide)⟩

/-- Whitespace per the ECMAScript `trim` method and the regex class
backslash-s: ASCII whitespace, NBSP, the Unicode space separators, the
line separators and the BOM. -/
def isJsWs (c : Char) : Bool :=
  c = ' ' ∨ c = '\t' ∨ c = '\n' ∨ c = '\r' ∨ c = '\x0b' ∨ c = '\x0c' ∨
  c = '\u00A0' ∨ c = '\u1680' ∨ ('\u2000' ≤ c ∧ c ≤ '\u200A') ∨
  c = '\u2028' ∨ c = '\u2029' ∨ c = '\u202F' ∨ c = '\u205F' ∨
  c = '\u3000' ∨ c = '\uFEFF'

def trimStart (l : List Char) : List Char := l.dropWhile isJsWs

def trimEnd (l : List Char) : List Char := ((l.reverse.dropWhile isJsWs)).reverse

/-- The ECMAScript `String.prototype.trim`. -/
def jsTrim (l : List Char) : List Char := trimEnd (trimStart l)

/-- `startsWithL l p` holds when `p` is an initial segment of `l`. -/
def startsWithL : List Char → List Char → Bool
  | _, [] => true
  | [], _ :: _ => false
  | c :: l, d :: p => c = d && startsWithL l p

/-- Lower-case an ASCII letter, used for the case-insensitive regex flag. -/
def lowerAscii (c : Char) : Char :=
  if 'A' ≤ c ∧ c ≤ 'Z' then Char.ofNat (c.toNat + 32) else c

/-- `startsWithCI l p`: case-insensitive initial-segment test. -/
def startsWithCI : List Char → List Char → Bool
  | _, [] => true
  | [], _ :: _ => false
  | c :: l, d :: p => lowerAscii c = lowerAscii d && startsWithCI l p

/-- `endsWithL l p` holds when `p` is a final segment of `l`. -/
def endsWithL (l p : List Char) : Bool := startsWithL l.reverse p.reverse

/-- Drop the final three characters of a list. -/
def dropLast3 (l : List Char) : List Char := (l.reverse.drop 3).reverse

/-- Capture group of the fence regex of `parseGeneratedQuiz`
(`geminiService.ts`, line 32) on an already-trimmed string.  The regex
is anchored at both ends with the dotall and ignore-case flags; it
matches when the string opens with three backticks, optionally followed
by `json` (case-insensitively), and closes with three final backticks.
The greedy leading whitespace class, the lazy group and the trailing
whitespace class make the captured group the trimmed text between the
two fences.  `none` means the regex does not match. -/
def fenceGroup (t : List Char) : Option (List Char) :=
  if startsWithL t ('`' :: '`' :: '`' :: []) then
    let r0 := t.drop 3
    if startsWithCI r0 ('j' :: 's' :: 'o' :: 'n' :: []) ∧
        endsWithL (r0.drop 4) ('`' :: '`' :: '`' :: []) then
      some (jsTrim (dropLast3 (r0.drop 4)))
    else if endsWithL r0 ('`' :: '`' :: '`' :: []) then
      some (jsTrim (dropLast3 r0))
    else none
  else none

/-- Fence stripping of `parseGeneratedQuiz` (lines 33 to 36): when the
fence regex matches and its group is truthy (non-empty), the cleaned
string becomes the trimmed group; otherwise the input is kept. -/
def stripFences (t : List Char) : List Char :=
  match fenceGroup t with
  | some g => if g = [] then t else g
  | none => t

/-- JSON values as produced by `JSON.parse`.  Numbers are kept exactly as
a decimal mantissa and exponent; the claims only ever inspect whether a
number is zero. -/
inductive Json where
  | null : Json
  | bool (b : Bool) : Json
  | num (m : Int) (e : Int) : Json
  | str (s : List Char) : Json
  | arr (elems : List Json) : Json
  | obj (members : List ((List Char) × Json)) : Json

/-- Whitespace accepted by the JSON grammar. -/
def isJsonWs (c : Char) : Bool :=
  c = ' ' ∨ c = '\t' ∨ c = '\n' ∨ c = '\r'

def skipWs (l : List Char) : List Char := l.dropWhile isJsonWs

/-- Match a literal word, returning the rest of the input. -/
def lit : List Char → List Char → Option (List Char)
  | l, [] => some l
  | [], _ :: _ => none
  | c :: l, d :: p => if c = d then lit l p else none

def hexVal (c : Char) : Option Nat :=
  if '0' ≤ c ∧ c ≤ '9' then some (c.toNat - 48)
  else if 'a' ≤ c ∧ c ≤ 'f' then some (c.toNat - 87)
  else if 'A' ≤ c ∧ c ≤ 'F' then some (c.toNat - 55)
  else none

/-- Decode one JSON string escape after the backslash. -/
def escDecode : List Char → Option (Char × List Char)
  | [] => none
  | e :: r =>
    if e = '"' then some ('"', r)
    else if e = '\\' then some ('\\', r)
    else if e = '/' then some ('/', r)
    else if e = 'b' then some ('\x08', r)
    else if e = 'f' then some ('\x0c', r)
    else if e = 'n' then some ('\n', r)
    else if e = 'r' then some ('\r', r)
    else if e = 't' then some ('\t', r)
    else if e = 'u' then
      match r with
      | h1 :: h2 :: h3 :: h4 :: r2 =>
        match hexVal h1, hexVal h2, hexVal h3, hexVal h4 with
        | some a, some b, some c, some d =>
          some (Char.ofNat (((a * 16 + b) * 16 + c) * 16 + d), r2)
        | _, _, _, _ => none
      | _ => none
    else none

/-- Parse the body of a JSON string after the opening quote.  `fuel`
bounds the recursion; one unit per produced character suffices. -/
def parseJStr (fuel : Nat) (l : List Char) : Option (List Char × List Char) :=
  match fuel with
  | 0 => none
  | f + 1 =>
    match l with
    | [] => none
    | c :: r =>
      if c = '"' then some ([], r)
      else if c = '\\' then
        match escDecode r with
        | some (ch, r2) => (parseJStr f r2).map (fun pr => (ch :: pr.1, pr.2))
        | none => none
      else if c.toNat < 32 then none
      else (parseJStr f r).map (fun pr => (c :: pr.1, pr.2))

def isDigit (c : Char) : Bool := '0' ≤ c ∧ c ≤ '9'

def digitsToNat (l : List Char) : Nat :=
  l.foldl (fun a c => a * 10 + (c.toNat - 48)) 0

/-- Fractional part of a JSON number: value, number of digits, rest. -/
def parseFrac (l : List Char) : Option (Nat × Nat × List Char) :=
  match l with
  | '.' :: r =>
    let ds := r.takeWhile isDigit
    if ds = [] then none
    else some (digitsToNat ds, ds.length, r.dropWhile isDigit)
  | _ => some (0, 0, l)

/-- Exponent part of a JSON number: signed value, rest. -/
def parseExp (l : List Char) : Option (Int × List Char) :=
  match l with
  | c :: r =>
    if c = 'e' ∨ c = 'E' then
      let sr : Int × List Char :=
        match r with
        | '+' :: r2 => (1, r2)
        | '-' :: r2 => (-1, r2)
        | _ => (1, r)
      let ds := sr.2.takeWhile isDigit
      if ds = [] then none
      else some (sr.1 * (digitsToNat ds : Int), sr.2.dropWhile isDigit)
    else some (0, l)
  | [] => some (0, [])

/-- Parse a JSON number.  A leading zero stops the integer part, so that
inputs such as `01` leave the second digit unconsumed and fail at the
enclosing grammar level, as `JSON.parse` rejects them. -/
def parseNum (l : List Char) : Option (Json × List Char) :=
  let sl : Bool × List Char :=
    match l with
    | '-' :: r => (true, r)
    | _ => (false, l)
  match sl.2 with
  | c :: r =>
    if isDigit c then
      let intDigits : List Char :=
        if c = '0' then '0' :: [] else c :: r.takeWhile isDigit
      let rest1 := if c = '0' then r else r.dropWhile isDigit
      match parseFrac rest1 with
      | none => none
      | some (fv, flen, rest2) =>
        match parseExp rest2 with
        | none => none
        | some (ev, rest3) =>
          let mAbs : Nat := digitsToNat intDigits * 10 ^ flen + fv
          let m : Int := if sl.1 then -(mAbs : Int) else (mAbs : Int)
          some (Json.num m (ev - (flen : Int)), rest3)
    else none
  | [] => none

mutual

/-- Recursive-descent JSON value parser, modelling `JSON.parse`. -/
def parseValue (fuel : Nat) (l : List Char) : Option (Json × List Char) :=
  match fuel with
  | 0 => none
  | f + 1 =>
    match skipWs l with
    | [] => none
    | c :: r =>
      if c = '"' then
        (parseJStr (r.length + 1) r).map (fun pr => (Json.str pr.1, pr.2))
      else if c = '[' then parseArrRest f r
      else if c = '\x7b' then parseObjRest f r
      else if c = 'n' then
        (lit r ('u' :: 'l' :: 'l' :: [])).map (fun rest => (Json.null, rest))
      else if c = 't' then
        (lit r ('r' :: 'u' :: 'e' :: [])).map (fun rest => (Json.bool true, rest))
      else if c = 'f' then
        (lit r ('a' :: 'l' :: 's' :: 'e' :: [])).map (fun rest => (Json.bool false, rest))
      else parseNum (c :: r)

/-- Array parser, after the opening square bracket. -/
def parseArrRest (fuel : Nat) (l : List Char) : Option (Json × List Char) :=
  match fuel with
  | 0 => none
  | f + 1 =>
    match skipWs l with
    | ']' :: r => some (Json.arr [], r)
    | _ =>
      match parseElems f l with
      | some (es, r) => some (Json.arr es, r)
      | none => none

/-- One or more comma-separated array elements up to the closing bracket. -/
def parseElems (fuel : Nat) (l : List Char) : Option (List Json × List Char) :=
  match fuel with
  | 0 => none
  | f + 1 =>
    match parseValue f l with
    | none => none
    | some (j, r) =>
      match skipWs r with
      | ',' :: r2 =>
        match parseElems f r2 with
        | some (es, r3) => some (j :: es, r3)
        | none => none
      | ']' :: r2 => some (j :: [], r2)
      | _ => none

/-- Object parser, after the opening curly brace. -/
def parseObjRest (fuel : Nat) (l : List Char) : Option (Json × List Char) :=
  match fuel with
  | 0 => none
  | f + 1 =>
    match skipWs l with
    | '\x7d' :: r => some (Json.obj [], r)
    | _ =>
      match parseMembers f l with
      | some (ms, r) => some (Json.obj ms, r)
      | none => none

/-- One or more comma-separated object members up to the closing brace. -/
def parseMembers (fuel : Nat) (l : List Char) :
    Option (List ((List Char) × Json) × List Char) :=
  match fuel with
  | 0 => none
  | f + 1 =>
    match skipWs l with
    | '"' :: r =>
      match parseJStr (r.length + 1) r with
      | none => none
      | some (k, r1) =>
        match skipWs r1 with
        | ':' :: r2 =>
          match parseValue f r2 with
          | none => none
          | some (v, r3) =>
            match skipWs r3 with
            | ',' :: r4 =>
              match parseMembers f r4 with
              | some (ms, r5) => some ((k, v) :: ms, r5)
              | none => none
            | '\x7d' :: r4 => some ((k, v) :: [], r4)
            | _ => none
        | _ => none
    | _ => none

end

/-- `JSON.parse`: a full JSON text, allowing surrounding whitespace and
nothing else.  The fuel budget of three units per input character is
always sufficient, so the fuel-exhaustion branches are unreachable and
the model is the total parser: every cycle of the mutual recursion
spends at most three fuel units per consumed character (the chain
`parseValue` to `parseArrRest` to `parseElems` spends three units for
one opening bracket, the object chain likewise for one opening brace,
and each further `parseElems` or `parseMembers` iteration spends one
unit for at least two consumed characters), and `parseJStr` receives a
separate budget of one unit per remaining character. -/
def Json.parse (l : List Char) : Option Json :=
  match parseValue (3 * l.length + 3) l with
  | some (j, r) => if skipWs r = [] then some j else none
  | none => none

/-- Last binding of a key in an object member list: `JSON.parse` lets a
later duplicate key overwrite an earlier one. -/
def lookupLast : List ((List Char) × Json) → List Char → Option Json
  | [], _ => none
  | kv :: rest, k =>
    match lookupLast rest k with
    | some v => some v
    | none => if kv.1 = k then some kv.2 else none

/-- JavaScript property read `j.k` on a JSON value.  `none` stands for
`undefined`: primitives and arrays have none of the properties read by
the parser, only objects do.  Reading a property of `null` throws and is
handled separately by the caller. -/
def getField (j : Json) (k : List Char) : Option Json :=
  match j with
  | Json.obj kvs => lookupLast kvs k
  | _ => none

/-- JavaScript truthiness of a JSON value. -/
def truthy : Json → Bool
  | Json.null => false
  | Json.bool b => b
  | Json.num m _ => ¬ m = 0
  | Json.str s => ¬ s = []
  | Json.arr _ => true
  | Json.obj _ => true

/-- Truthiness of a possibly-undefined value. -/
def truthyOpt : Option Json → Bool
  | some v => truthy v
  | none => false

/-- `v || d` for a possibly-undefined value. -/
def orDefault (v : Option Json) (d : Json) : Json :=
  match v with
  | some j => if truthy j then j else d
  | none => d

/-- An option record as built by `parseGeneratedQuiz`.  At run time the
text is whatever truthy JSON value the model returned (TypeScript does
not check it), so it is kept as a JSON value.  The `crypto.randomUUID()`
identifier is modelled away: no claim depends on its value. -/
structure ParsedOption where
  text : Json
  isCorrect : Bool

/-- A question record as built by `parseGeneratedQuiz`. -/
structure ParsedQuestion where
  questionText : Json
  options : List ParsedOption
  isMultipleChoice : Bool

def textKey : List Char := "text".data

def isCorrectKey : List Char := "isCorrect".data

def questionTextKey : List Char := "questionText".data

def optionsKey : List Char := "options".data

def isMultipleChoiceKey : List Char := "isMultipleChoice".data

def optionVideText : List Char := "Option vide".data

def defaultQuestionText (index : Nat) : List Char :=
  "Question ".data ++ (Nat.repr (index + 1)).data ++ " sans texte".data

def Json.isNull : Json → Bool
  | Json.null => true
  | _ => false

/-- The `Array.isArray` test on a possibly-undefined value: the list of
elements when the value is a JSON array, `none` otherwise. -/
def asArray : Option Json → Option (List Json)
  | some (Json.arr os) => some os
  | _ => none

/-- The option mapper of `parseGeneratedQuiz` (lines 46 to 50).  Reading
`opt.text` on a `null` element throws a TypeError, which the enclosing
try/catch turns into a `null` result: this is the `none` case. -/
def mkOption (opt : Json) : Option ParsedOption :=
  if opt.isNull then none
  else
    some { text := orDefault (getField opt textKey) (Json.str optionVideText),
           isCorrect := truthyOpt (getField opt isCorrectKey) }

/-- The options of a question element: map the members of the `options`
array, or use the empty list when the field is not an array.  `none`
records a thrown TypeError. -/
def parseOptions (v : Option Json) : Option (List ParsedOption) :=
  match asArray v with
  | some os => os.mapM mkOption
  | none => some []

/-- The question mapper of `parseGeneratedQuiz` (lines 43 to 52), for the
element at position `index`.  A `null` element, or a `null` inside its
options array, throws and yields `none`. -/
def mkQuestion (index : Nat) (q : Json) : Option ParsedQuestion :=
  if q.isNull then none
  else
    match parseOptions (getField q optionsKey) with
    | none => none
    | some os =>
      some { questionText :=
               orDefault (getField q questionTextKey)
                 (Json.str (defaultQuestionText index)),
             options := os,
             isMultipleChoice := truthyOpt (getField q isMultipleChoiceKey) }

/-- The pre-processing pipeline of `parseGeneratedQuiz`: trim, strip the
markdown fences, double the LaTeX backslashes. -/
def preprocess (s : List Char) : List Char :=
  doubleBackslashes (stripFences (jsTrim s))

/-- `parseGeneratedQuiz` (`geminiService.ts`, lines 30 to 61): parse the
pre-processed string as JSON; a non-array value, a parse error, or a
TypeError thrown while mapping the elements all yield `null`. -/
def parseGeneratedQuiz (s : List Char) : Option (List ParsedQuestion) :=
  match Json.parse (preprocess s) with
  | some (Json.arr l) => l.enum.mapM (fun p => mkQuestion p.1 p.2)
  | _ => none

lemma mapM_option_some_length {α β : Type} (f : α → Option β) :
    ∀ (l : List α) (r : List β), l.mapM f = some r → r.length = l.length := by
  intro l
  induction l with
  | nil =>
    intro r h
    simp only [List.mapM_nil, pure] at h
    cases h
    rfl
  | cons a t ih =>
    intro r h
    rw [List.mapM_cons] at h
    cases hfa : f a with
    | none => rw [hfa] at h; simp at h
    | some b =>
      rw [hfa] at h
      cases hmt : t.mapM f with
      | none => rw [hmt] at h; simp at h
      | some bs =>
        rw [hmt] at h
        simp only [Option.bind_some, Option.pure_def, Option.bind_eq_bind,
          Option.some_bind] at h
        cases h
        simp [ih bs hmt]

lemma mapM_option_eq_none_iff {α β : Type} (f : α → Option β) :
    ∀ (l : List α), l.mapM f = none ↔ ∃ a ∈ l, f a = none := by
  intro l
  induction l with
  | nil => rw [List.mapM_nil]; simp
  | cons a t ih =>
    rw [List.mapM_cons]
    cases hfa : f a with
    | none => simp [hfa]
    | some b =>
      cases hmt : t.mapM f with
      | none =>
        simp only [hfa, hmt, Option.pure_def, Option.bind_eq_bind,
          Option.some_bind, Option.none_bind]
        constructor
        · intro _
          rcases ih.mp hmt with ⟨x, hx, hfx⟩
          exact ⟨x, List.mem_cons_of_mem a hx, hfx⟩
        · intro _; trivial
      | some bs =>
        simp only [Option.pure_def, Option.bind_eq_bind, Option.some_bind]
        constructor
        · intro h; cases h
        · rintro ⟨x, hx, hfx⟩
          rcases List.mem_cons.mp hx with h | h
          · subst h; rw [hfx] at hfa; cases hfa
          · have := (ih.mpr ⟨x, h, hfx⟩)
            rw [this] at hmt; cases hmt

lemma mapM_option_some_get {α β : Type} (f : α → Option β) :
    ∀ (l : List α) (r : List β), l.mapM f = some r →
      ∀ i (hi : i < l.length) (hr : i < r.length),
        f (l.get ⟨i, hi⟩) = some (r.get ⟨i, hr⟩) := by
  intro l
  induction l with
  | nil => intro r _ i hi; cases hi
  | cons a t ih =>
    intro r h i hi hr
    rw [List.mapM_cons] at h
    cases hfa : f a with
    | none => rw [hfa] at h; simp at h
    | some b =>
      rw [hfa] at h
      cases hmt : t.mapM f with
      | none => rw [hmt] at h; simp at h
      | some bs =>
        rw [hmt] at h
        simp only [Option.bind_some, Option.pure_def, Option.bind_eq_bind,
          Option.some_bind] at h
        cases h
        cases i with
        | zero => exact hfa
        | succ j =>
          exact ih bs hmt j (Nat.lt_of_succ_lt_succ hi) (Nat.lt_of_succ_lt_succ hr)

lemma isNull_iff (q : Json) : q.isNull = true ↔ q = Json.null := by
  cases q <;> simp [Json.isNull]

lemma mkOption_eq_none_iff (o : Json) : mkOption o = none ↔ o = Json.null := by
  cases o <;> simp [mkOption, Json.isNull]

lemma asArray_eq_some_iff (v : Option Json) (os : List Json) :
    asArray v = some os ↔ v = some (Json.arr os) := by
  cases v with
  | none => simp [asArray]
  | some j => cases j <;> simp [asArray]

def zeroOptionsQuestion : ParsedQuestion :=
  { questionText := Json.str (defaultQuestionText 0), options := [],
    isMultipleChoice := false }

/-- Counterexample to C1: the response `[true]` parses to a single
question with zero options, not four.  `parseGeneratedQuiz` maps every
JSON array element to a question and never checks the option count. -/
theorem c1_counterexample :
    parseGeneratedQuiz ("[true]".data) = some (zeroOptionsQuestion :: []) ∧
    ¬ zeroOptionsQuestion.options.length = 4 :=
  ⟨rfl, by decide⟩

/-- Claim C1 amended: a question built by `parseGeneratedQuiz` has
exactly as many options as the `options` array of its JSON element, and
no options at all when that field is missing or not an array; the
four-option requirement is only requested from the model in the prompts,
never enforced by the parser. -/
theorem c1_options_length (i : Nat) (q : Json) (question : ParsedQuestion)
    (h : mkQuestion i q = some question) :
    (∀ os, getField q optionsKey = some (Json.arr os) →
        question.options.length = os.length) ∧
    ((∀ os, ¬ getField q optionsKey = some (Json.arr os)) →
        question.options = []) := by
  rw [mkQuestion] at h
  by_cases hn : q.isNull = true
  · rw [if_pos hn] at h
    cases h
  · rw [if_neg hn] at h
    cases hp : parseOptions (getField q optionsKey) with
    | none => rw [hp] at h; cases h
    | some ps =>
      rw [hp] at h
      have hq : question =
          { questionText := orDefault (getField q questionTextKey)
              (Json.str (defaultQuestionText i)),
            options := ps,
            isMultipleChoice := truthyOpt (getField q isMultipleChoiceKey) } :=
        (Option.some.inj h).symm
      rw [parseOptions] at hp
      cases hA : asArray (getField q optionsKey) with
      | some os0 =>
        rw [hA] at hp
        constructor
        · intro os hos
          have hA2 : asArray (getField q optionsKey) = some os :=
            (asArray_eq_some_iff _ _).mpr hos
          rw [hA] at hA2
          cases hA2
          rw [hq]
          exact mapM_option_some_length mkOption os0 ps hp
        · intro hno
          exact absurd ((asArray_eq_some_iff _ _).mp hA) (hno os0)
      | none =>
        rw [hA] at hp
        cases hp
        constructor
        · intro os hos
          rw [(asArray_eq_some_iff _ os).mpr hos] at hA
          cases hA
        · intro _
          rw [hq]

def oneOptionQuestion : ParsedQuestion :=
  { questionText := Json.str (defaultQuestionText 0),
    options := { text := Json.str optionVideText, isCorrect := false } :: [],
    isMultipleChoice := false }

/-- Witness for C1 amended: a JSON element whose options array has one
entry yields a question with one option. -/
theorem c1_options_length_witness :
    mkQuestion 0 (Json.obj ((optionsKey, Json.arr (Json.bool true :: [])) :: [])) =
      some oneOptionQuestion ∧ oneOptionQuestion.options.length = 1 :=
  ⟨rfl,
   (c1_options_length 0 (Json.obj ((optionsKey, Json.arr (Json.bool true :: [])) :: []))
      oneOptionQuestion rfl).1 (Json.bool true :: []) rfl⟩

lemma parseOptions_eq_arr (v : Option Json) (os : List Json)
    (h : asArray v = some os) : parseOptions v = os.mapM mkOption := by
  rw [parseOptions, h]

lemma parseOptions_eq_default (v : Option Json) (h : asArray v = none) :
    parseOptions v = some [] := by
  rw [parseOptions, h]

lemma mkQuestion_eq (i : Nat) (q : Json) (h : ¬ q = Json.null) :
    mkQuestion i q =
      (parseOptions (getField q optionsKey)).map (fun os =>
        { questionText := orDefault (getField q questionTextKey)
            (Json.str (defaultQuestionText i)),
          options := os,
          isMultipleChoice := truthyOpt (getField q isMultipleChoiceKey) }) := by
  rw [mkQuestion, if_neg (fun hn => h ((isNull_iff q).mp hn))]
  cases parseOptions (getField q optionsKey) with
  | none => rfl
  | some os => rfl

/-- Counterexample to C9: `[null]` is valid JSON and a JSON array, yet
`parseGeneratedQuiz` returns `null`, because reading `questionText` on
the `null` element throws a TypeError that the catch block turns into a
`null` result. -/
theorem c9_counterexample :
    Json.parse (preprocess ("[null]".data)) = some (Json.arr (Json.null :: [])) ∧
    parseGeneratedQuiz ("[null]".data) = none :=
  ⟨rfl, rfl⟩

/-- Claim C9 amended: `parseGeneratedQuiz` returns `null` exactly when
the pre-processed string is not valid JSON, its value is not an array,
or mapping some element throws (the element is `null`, or its options
array contains `null`); otherwise it returns one question per array
element, in order, with missing or falsy fields replaced by defaults and
flags coerced to booleans. -/
theorem c9_parser_contract (s : List Char) :
    (Json.parse (preprocess s) = none → parseGeneratedQuiz s = none) ∧
    (∀ j, Json.parse (preprocess s) = some j → (∀ l, ¬ j = Json.arr l) →
        parseGeneratedQuiz s = none) ∧
    (∀ l, Json.parse (preprocess s) = some (Json.arr l) →
        (parseGeneratedQuiz s = none ↔ ∃ p ∈ l.enum, mkQuestion p.1 p.2 = none)) ∧
    (∀ l qs, Json.parse (preprocess s) = some (Json.arr l) →
        parseGeneratedQuiz s = some qs →
        qs.length = l.length ∧
        ∀ i (hi : i < l.length) (hq : i < qs.length),
          mkQuestion i (l.get ⟨i, hi⟩) = some (qs.get ⟨i, hq⟩)) ∧
    (∀ i q, mkQuestion i q = none ↔
        q = Json.null ∨
          ∃ os, getField q optionsKey = some (Json.arr os) ∧ Json.null ∈ os) ∧
    (∀ i q question, mkQuestion i q = some question →
        (truthyOpt (getField q questionTextKey) = false →
            question.questionText = Json.str (defaultQuestionText i)) ∧
        (∀ v, getField q questionTextKey = some v → truthy v = true →
            question.questionText = v) ∧
        question.isMultipleChoice = truthyOpt (getField q isMultipleChoiceKey)) := by
  refine ⟨?_, ?_, ?_, ?_, ?_, ?_⟩
  · intro h
    rw [parseGeneratedQuiz, h]
  · intro j hj hne
    rw [parseGeneratedQuiz, hj]
    cases j with
    | arr l => exact absurd rfl (hne l)
    | null => rfl
    | bool b => rfl
    | num m e => rfl
    | str t => rfl
    | obj ms => rfl
  · intro l hl
    rw [parseGeneratedQuiz, hl]
    exact mapM_option_eq_none_iff (fun p => mkQuestion p.1 p.2) l.enum
  · intro l qs hl hqs
    rw [parseGeneratedQuiz, hl] at hqs
    have hlen : qs.length = l.length := by
      rw [mapM_option_some_length _ _ _ hqs, List.enum_length]
    refine ⟨hlen, ?_⟩
    intro i hi hq
    have hie : i < l.enum.length := by rw [List.enum_length]; exact hi
    have := mapM_option_some_get _ _ _ hqs i hie hq
    rw [List.get_eq_getElem, List.getElem_enum] at this
    simpa using this
  · intro i q
    by_cases hqn : q = Json.null
    · subst hqn
      simp [mkQuestion, Json.isNull]
    · rw [mkQuestion_eq i q hqn]
      cases hA : asArray (getField q optionsKey) with
      | some os0 =>
        rw [parseOptions_eq_arr _ _ hA, Option.map_eq_none']
        rw [mapM_option_eq_none_iff]
        constructor
        · rintro ⟨o, ho, hoe⟩
          have heq : o = Json.null := (mkOption_eq_none_iff o).mp hoe
          subst heq
          exact Or.inr ⟨os0, (asArray_eq_some_iff _ _).mp hA, ho⟩
        · rintro (he | ⟨os, hos, hmem⟩)
          · exact absurd he hqn
          · have hA2 : asArray (getField q optionsKey) = some os :=
              (asArray_eq_some_iff _ _).mpr hos
            rw [hA] at hA2
            cases hA2
            exact ⟨Json.null, hmem, (mkOption_eq_none_iff _).mpr rfl⟩
      | none =>
        rw [parseOptions_eq_default _ hA]
        simp only [Option.map_some']
        constructor
        · intro hfalse
          exact absurd hfalse (Option.some_ne_none _)
        · rintro (he | ⟨os, hos, _⟩)
          · exact absurd he hqn
          · rw [(asArray_eq_some_iff _ os).mpr hos] at hA
            cases hA
  · intro i q question h
    by_cases hqn : q = Json.null
    · subst hqn
      simp [mkQuestion, Json.isNull] at h
    · rw [mkQuestion_eq i q hqn] at h
      cases hp : parseOptions (getField q optionsKey) with
      | none =>
        rw [hp] at h
        simp at h
      | some ps =>
        rw [hp] at h
        simp only [Option.map_some'] at h
        have hq : question =
            { questionText := orDefault (getField q questionTextKey)
                (Json.str (defaultQuestionText i)),
              options := ps,
              isMultipleChoice := truthyOpt (getField q isMultipleChoiceKey) } :=
          (Option.some.inj h).symm
        subst hq
        refine ⟨?_, ?_, rfl⟩
        · intro ht
          cases hg : getField q questionTextKey with
          | none => simp [orDefault, hg]
          | some v =>
            rw [hg] at ht
            simp only [truthyOpt] at ht
            simp [orDefault, hg, ht]
        · intro v hv htv
          simp [orDefault, hv, htv]

def deepArrayQuestion : ParsedQuestion :=
  { questionText := Json.str (defaultQuestionText 0), options := [],
    isMultipleChoice := false }

/-- Witness for C9 amended: the contract applied to a string that is not
valid JSON, to the array `[null]` whose element throws, and to the
deeply nested valid array `[[[0]]]`, whose single element maps to one
default question. -/
theorem c9_parser_contract_witness :
    parseGeneratedQuiz ("```".data) = none ∧
    parseGeneratedQuiz ("[null]".data) = none ∧
    (deepArrayQuestion :: []).length =
      (Json.arr (Json.arr (Json.num 0 0 :: []) :: []) :: []).length :=
  ⟨(c9_parser_contract ("```".data)).1 rfl,
   ((c9_parser_contract ("[null]".data)).2.2.1 (Json.null :: []) rfl).mpr
     ⟨(0, Json.null), List.mem_singleton_self _, rfl⟩,
   ((c9_parser_contract ("[[[0]]]".data)).2.2.2.1
      (Json.arr (Json.arr (Json.num 0 0 :: []) :: []) :: [])
      (deepArrayQuestion :: []) rfl rfl).1⟩

/-- A string wrapped in a markdown code fence whose first line is three
backticks followed by `json`, per claim C6. -/
def wrapJson (s : List Char) : List Char :=
  '`' :: '`' :: '`' :: 'j' :: 's' :: 'o' :: 'n' :: '\n' ::
    (s ++ '\n' :: '`' :: '`' :: '`' :: [])

/-- A string wrapped in a markdown code fence whose first line is three
backticks, per claim C6. -/
def wrapPlain (s : List Char) : List Char :=
  '`' :: '`' :: '`' :: '\n' :: (s ++ '\n' :: '`' :: '`' :: '`' :: [])

lemma jsTrim_eq_self (l : List Char)
    (hh : ∀ c, l.head? = some c → isJsWs c = false)
    (hl : ∀ c, l.getLast? = some c → isJsWs c = false) : jsTrim l = l := by
  have h1 : trimStart l = l := by
    cases l with
    | nil => rfl
    | cons a t =>
      rw [trimStart, List.dropWhile_cons, hh a rfl]
      simp
  rw [jsTrim, h1, trimEnd]
  cases hr : l.reverse with
  | nil =>
    simp [List.reverse_eq_nil_iff.mp hr]
  | cons b t =>
    have hb : isJsWs b = false := by
      apply hl
      rw [← List.head?_reverse, hr]
      rfl
    rw [List.dropWhile_cons, hb]
    simp [← hr]

lemma dropWhile_append_of_ne_nil (p : Char → Bool) (l t : List Char)
    (h : ¬ l.dropWhile p = []) :
    (l ++ t).dropWhile p = l.dropWhile p ++ t := by
  induction l with
  | nil => exact absurd rfl h
  | cons a as ih =>
    by_cases ha : p a = true
    · rw [List.cons_append, List.dropWhile_cons, List.dropWhile_cons, if_pos ha,
        if_pos ha]
      apply ih
      rw [List.dropWhile_cons, if_pos ha] at h
      exact h
    · rw [List.cons_append, List.dropWhile_cons, List.dropWhile_cons, if_neg ha,
        if_neg ha]
      simp

lemma dropWhile_append_of_nil (p : Char → Bool) (l t : List Char)
    (h : l.dropWhile p = []) : (l ++ t).dropWhile p = t.dropWhile p := by
  induction l with
  | nil => rfl
  | cons a as ih =>
    rw [List.dropWhile_cons] at h
    by_cases ha : p a = true
    · rw [if_pos ha] at h
      rw [List.cons_append, List.dropWhile_cons, if_pos ha]
      exact ih h
    · rw [if_neg ha] at h
      cases h

lemma trimEnd_append_nl (l : List Char) : trimEnd (l ++ '\n' :: []) = trimEnd l := by
  rw [trimEnd, trimEnd, List.reverse_append]
  simp only [List.reverse_cons, List.reverse_nil, List.nil_append, List.cons_append,
    List.dropWhile_cons]
  norm_num [isJsWs]

lemma jsTrim_pad (s : List Char) :
    jsTrim ('\n' :: (s ++ '\n' :: [])) = jsTrim s := by
  rw [jsTrim, jsTrim]
  have h1 : trimStart ('\n' :: (s ++ '\n' :: [])) = trimStart (s ++ '\n' :: []) := by
    rw [trimStart, trimStart, List.dropWhile_cons]
    norm_num [isJsWs]
  rw [h1]
  by_cases he : trimStart s = []
  · have h2 : trimStart (s ++ '\n' :: []) = [] := by
      rw [trimStart, dropWhile_append_of_nil _ _ _ he]
      rfl
    rw [h2, he]
  · have h2 : trimStart (s ++ '\n' :: []) = trimStart s ++ '\n' :: [] := by
      rw [trimStart, dropWhile_append_of_ne_nil _ _ _ he]
      rfl
    rw [h2, trimEnd_append_nl]

lemma endsWithL_append_bt3 (x : List Char) :
    endsWithL (x ++ ('`' :: '`' :: '`' :: [])) ('`' :: '`' :: '`' :: []) = true := by
  rw [endsWithL, List.reverse_append]
  simp [startsWithL]

lemma dropLast3_append_bt3 (x : List Char) :
    dropLast3 (x ++ ('`' :: '`' :: '`' :: [])) = x := by
  rw [dropLast3, List.reverse_append]
  simp

lemma wrapJson_tail_eq (s : List Char) :
    '\n' :: (s ++ '\n' :: '`' :: '`' :: '`' :: []) =
      ('\n' :: (s ++ '\n' :: [])) ++ ('`' :: '`' :: '`' :: []) := by
  simp

lemma fenceGroup_wrapJson (s : List Char) :
    fenceGroup (wrapJson s) = some (jsTrim s) := by
  rw [wrapJson, fenceGroup]
  rw [if_pos (by simp [startsWithL])]
  rw [if_pos ?hc]
  case hc =>
    constructor
    · simp [startsWithCI, lowerAscii]
    · show endsWithL ('\n' :: (s ++ '\n' :: '`' :: '`' :: '`' :: [])) _ = true
      rw [wrapJson_tail_eq]
      exact endsWithL_append_bt3 _
  show some (jsTrim (dropLast3 ('\n' :: (s ++ '\n' :: '`' :: '`' :: '`' :: [])))) = _
  rw [wrapJson_tail_eq, dropLast3_append_bt3, jsTrim_pad]

lemma fenceGroup_wrapPlain (s : List Char) :
    fenceGroup (wrapPlain s) = some (jsTrim s) := by
  rw [wrapPlain, fenceGroup]
  rw [if_pos (by simp [startsWithL])]
  rw [if_neg ?hc]
  case hc =>
    intro hand
    have h1 : startsWithCI ('\n' :: (s ++ '\n' :: '`' :: '`' :: '`' :: []))
        ('j' :: 's' :: 'o' :: 'n' :: []) = true := hand.1
    simp [startsWithCI, lowerAscii] at h1
  rw [if_pos ?he]
  case he =>
    show endsWithL ('\n' :: (s ++ '\n' :: '`' :: '`' :: '`' :: [])) _ = true
    rw [wrapJson_tail_eq]
    exact endsWithL_append_bt3 _
  show some (jsTrim (dropLast3 ('\n' :: (s ++ '\n' :: '`' :: '`' :: '`' :: [])))) = _
  rw [wrapJson_tail_eq, dropLast3_append_bt3, jsTrim_pad]

lemma jsTrim_wrapJson (s : List Char) : jsTrim (wrapJson s) = wrapJson s := by
  apply jsTrim_eq_self
  · intro c hc
    rw [wrapJson] at hc
    cases hc
    decide
  · intro c hc
    have he : wrapJson s =
        ('`' :: '`' :: '`' :: 'j' :: 's' :: 'o' :: 'n' :: '\n' ::
          (s ++ '\n' :: '`' :: '`' :: [])) ++ '`' :: [] := by
      simp [wrapJson]
    rw [he, List.getLast?_concat] at hc
    cases hc
    decide

lemma jsTrim_wrapPlain (s : List Char) : jsTrim (wrapPlain s) = wrapPlain s := by
  apply jsTrim_eq_self
  · intro c hc
    rw [wrapPlain] at hc
    cases hc
    decide
  · intro c hc
    have he : wrapPlain s =
        ('`' :: '`' :: '`' :: '\n' :: (s ++ '\n' :: '`' :: '`' :: [])) ++ '`' :: [] := by
      simp [wrapPlain]
    rw [he, List.getLast?_concat] at hc
    cases hc
    decide

lemma stripFences_of_none (t : List Char) (h : fenceGroup t = none) :
    stripFences t = t := by
  rw [stripFences, h]

lemma doubleBackslashes_cons_backtick (r : List Char) :
    doubleBackslashes ('`' :: r) = '`' :: doubleBackslashes r := rfl

lemma Json.parse_backtick (r : List Char) : Json.parse ('`' :: r) = none := rfl

lemma stripFences_of_some (t g : List Char) (h : fenceGroup t = some g) :
    stripFences t = if g = [] then t else g := by
  rw [stripFences, h]

lemma parseGeneratedQuiz_wrap (s w rest : List Char)
    (hw : w = '`' :: rest)
    (ht : jsTrim w = w)
    (hf : fenceGroup w = some (jsTrim s))
    (h : fenceGroup (jsTrim s) = none) :
    parseGeneratedQuiz w = parseGeneratedQuiz s := by
  by_cases he : jsTrim s = []
  · have hpw : parseGeneratedQuiz w = none := by
      rw [parseGeneratedQuiz, preprocess, ht, stripFences_of_some _ _ hf, if_pos he,
        hw, doubleBackslashes_cons_backtick, Json.parse_backtick]
    have hps : parseGeneratedQuiz s = none := by
      rw [parseGeneratedQuiz, preprocess, stripFences_of_none _ h, he]
      rfl
    rw [hpw, hps]
  · have hpre : preprocess w = preprocess s := by
      rw [preprocess, preprocess, ht, stripFences_of_some _ _ hf, if_neg he,
        stripFences_of_none _ h]
    rw [parseGeneratedQuiz, parseGeneratedQuiz, hpre]

def fencedEmptyArray : List Char :=
  '`' :: '`' :: '`' :: '\n' :: '[' :: ']' :: '\n' :: '`' :: '`' :: '`' :: []

/-- Counterexample to C6: for a string that is already a fenced block,
stripping is applied only once, so parsing the string wrapped in a fence
differs from parsing the string itself: the fenced empty array parses to
an empty quiz, while its wrapped form leaves a fenced block that is not
valid JSON. -/
theorem c6_counterexample :
    parseGeneratedQuiz fencedEmptyArray = some [] ∧
    parseGeneratedQuiz (wrapJson fencedEmptyArray) = none ∧
    ¬ parseGeneratedQuiz (wrapJson fencedEmptyArray) =
        parseGeneratedQuiz fencedEmptyArray := by
  refine ⟨rfl, rfl, ?_⟩
  intro h
  rw [show parseGeneratedQuiz (wrapJson fencedEmptyArray) = none from rfl,
    show parseGeneratedQuiz fencedEmptyArray = some [] from rfl] at h
  cases h

/-- Claim C6 amended: fence stripping commutes with parsing for every
string whose trimmed form is not itself matched by the fence regex;
wrapping such a string in a markdown fence (with or without the `json`
tag) does not change the result of `parseGeneratedQuiz`. -/
theorem c6_fence_commute (s : List Char) (h : fenceGroup (jsTrim s) = none) :
    parseGeneratedQuiz (wrapJson s) = parseGeneratedQuiz s ∧
    parseGeneratedQuiz (wrapPlain s) = parseGeneratedQuiz s :=
  ⟨parseGeneratedQuiz_wrap s (wrapJson s) _ rfl (jsTrim_wrapJson s)
      (fenceGroup_wrapJson s) h,
   parseGeneratedQuiz_wrap s (wrapPlain s) _ rfl (jsTrim_wrapPlain s)
      (fenceGroup_wrapPlain s) h⟩

/-- Witness for C6 amended: the commutation evaluated on the plain
string `[]`, which is not itself fenced. -/
theorem c6_fence_commute_witness :
    fenceGroup (jsTrim ("[]".data)) = none ∧
    parseGeneratedQuiz (wrapJson ("[]".data)) = parseGeneratedQuiz ("[]".data) :=
  ⟨rfl, (c6_fence_commute ("[]".data) rfl).1⟩

/-- `QuizOption` of `types.ts`. -/
structure QuizOption where
  id : String
  text : String
  isCorrect : Bool
deriving DecidableEq

/-- `QuizQuestion` of `types.ts`. -/
structure QuizQuestion where
  id : String
  questionText : String
  options : List QuizOption
  isMultipleChoice : Bool
deriving DecidableEq

/-- `handleOptionTextChange` of the question editor card. -/
def handleOptionTextChange (editedOptions : List QuizOption) (optionId : String)
    (newText : String) : List QuizOption :=
  editedOptions.map (fun o => if o.id = optionId then { o with text := newText } else o)

/-- Replace the element at an index, leaving the list unchanged when the
index is out of range (the JavaScript assignment to a valid index). -/
def modifyAt : List QuizOption → Nat → (QuizOption → QuizOption) → List QuizOption
  | [], _, _ => []
  | a :: t, 0, f => f a :: t
  | a :: t, i + 1, f => a :: modifyAt t i f

/-- The body of `handleOptionCorrectChange` once the toggled index is
known: for a single-answer question whose target was unchecked, first
clear every checkbox; then flip the target.  The index returned by
`findIndex` is always valid, so the `none` case is unreachable. -/
def toggleAt (isMultipleChoice : Bool) (editedOptions : List QuizOption)
    (i : Nat) : List QuizOption :=
  match editedOptions.get? i with
  | none => editedOptions
  | some tgt =>
    let base :=
      if isMultipleChoice = false ∧ tgt.isCorrect = false then
        editedOptions.map (fun o => { o with isCorrect := false })
      else editedOptions
    modifyAt base i (fun o => { o with isCorrect := !o.isCorrect })

/-- `handleOptionCorrectChange` of the question editor card: find the
toggled option and apply `toggleAt` at its index. -/
def handleOptionCorrectChange (isMultipleChoice : Bool)
    (editedOptions : List QuizOption) (optionId : String) : List QuizOption :=
  match editedOptions.findIdx? (fun o => o.id = optionId) with
  | none => editedOptions
  | some i => toggleAt isMultipleChoice editedOptions i

/-- `deleteOption` of the question editor card: refuse to go below two
options, otherwise remove the options bearing the given id. -/
def deleteOption (editedOptions : List QuizOption) (optionId : String) :
    List QuizOption :=
  if editedOptions.length ≤ 2 then editedOptions
  else editedOptions.filter (fun o => ¬ o.id = optionId)

/-- The corrective map of `handleSaveChanges` for a single-answer
question with several checked options: keep the first checked option,
uncheck the rest. -/
def keepFirstCorrect : List QuizOption → List QuizOption
  | [] => []
  | o :: rest =>
    if o.isCorrect then
      o :: rest.map (fun p => if p.isCorrect then { p with isCorrect := false } else p)
    else o :: keepFirstCorrect rest

/-- `handleSaveChanges` of the question editor card: reject an empty
question text, an empty option text, or no checked option; for a
single-answer question with several checked options, commit with only
the first one checked; otherwise commit the edited state.  `none` means
the edit was rejected and no question was committed. -/
def handleSaveChanges (question : QuizQuestion) (editedQuestionText : String)
    (editedOptions : List QuizOption) : Option QuizQuestion :=
  if jsTrim editedQuestionText.data = [] then none
  else if editedOptions.any (fun o => jsTrim o.text.data = []) then none
  else
    if (editedOptions.filter (fun o => o.isCorrect)).length = 0 then none
    else if question.isMultipleChoice = false ∧
        1 < (editedOptions.filter (fun o => o.isCorrect)).length then
      some { question with
               questionText := editedQuestionText,
               options := keepFirstCorrect editedOptions }
    else
      some { question with
               questionText := editedQuestionText,
               options := editedOptions }

lemma setFalse_of_cond (x : QuizOption) :
    (if x.isCorrect then { x with isCorrect := false } else x) =
      { x with isCorrect := false } := by
  cases x with
  | mk i t c => cases c <;> rfl

lemma map_setFalse_of_all_false (post : List QuizOption)
    (h : ∀ x ∈ post, x.isCorrect = false) :
    post.map (fun x => { x with isCorrect := false }) = post := by
  induction post with
  | nil => rfl
  | cons a t ih =>
    have ha := h a (by simp)
    have he : ({ a with isCorrect := false } : QuizOption) = a := by
      cases a with
      | mk i tx c => simp at ha; rw [ha]
    simp only [List.map_cons, he]
    rw [ih (fun x hx => h x (by simp [hx]))]

lemma keepFirstCorrect_decomp (pre : List QuizOption) (o : QuizOption)
    (post : List QuizOption) (hpre : ∀ x ∈ pre, x.isCorrect = false)
    (ho : o.isCorrect = true) :
    keepFirstCorrect (pre ++ o :: post) =
      pre ++ o :: post.map (fun x => { x with isCorrect := false }) := by
  induction pre with
  | nil =>
    simp only [List.nil_append]
    rw [keepFirstCorrect, if_pos ho]
    rw [List.map_congr_left (fun x _ => setFalse_of_cond x)]
  | cons a t ih =>
    have ha := hpre a (by simp)
    simp only [List.cons_append]
    rw [keepFirstCorrect, if_neg (by simp [ha])]
    rw [ih (fun x hx => hpre x (by simp [hx]))]

lemma exists_first_correct (opts : List QuizOption)
    (h : ¬ (opts.filter (fun o => o.isCorrect)).length = 0) :
    ∃ pre o post, opts = pre ++ o :: post ∧
      (∀ x ∈ pre, x.isCorrect = false) ∧ o.isCorrect = true ∧
      (opts.filter (fun o => o.isCorrect)).length =
        1 + (post.filter (fun o => o.isCorrect)).length := by
  induction opts with
  | nil => simp at h
  | cons a t ih =>
    by_cases ha : a.isCorrect = true
    · refine ⟨[], a, t, by simp, by simp, ha, ?_⟩
      rw [List.filter_cons, if_pos (by simp [ha])]
      simp [Nat.add_comm]
    · have ha2 : a.isCorrect = false := by
        cases hb : a.isCorrect
        · rfl
        · exact absurd hb ha
      have hft : (a :: t).filter (fun o => o.isCorrect) =
          t.filter (fun o => o.isCorrect) := by
        rw [List.filter_cons, if_neg (by simp [ha2])]
      rw [hft] at h
      rcases ih h with ⟨pre, o, post, hdec, hpre, ho, hcnt⟩
      refine ⟨a :: pre, o, post, by simp [hdec], ?_, ho, ?_⟩
      · intro x hx
        rcases List.mem_cons.mp hx with he | hm
        · rw [he]; exact ha2
        · exact hpre x hm
      · rw [hft, hcnt]

lemma filter_correct_result (pre : List QuizOption) (o : QuizOption)
    (post : List QuizOption) (hpre : ∀ x ∈ pre, x.isCorrect = false)
    (ho : o.isCorrect = true) :
    (((pre ++ o :: post.map (fun x => { x with isCorrect := false }))).filter
        (fun o => o.isCorrect)).length = 1 := by
  rw [List.filter_append, List.filter_cons]
  have h1 : pre.filter (fun o => o.isCorrect) = [] :=
    List.filter_eq_nil_iff.mpr (fun a ha => by simp [hpre a ha])
  have h2 : (post.map (fun x => { x with isCorrect := false })).filter
      (fun o => o.isCorrect) = [] := by
    apply List.filter_eq_nil_iff.mpr
    intro a ha
    rcases List.mem_map.mp ha with ⟨x, _, he⟩
    rw [← he]
    simp
  rw [h1, h2, if_pos (by simp [ho])]
  simp

/-- Claim C3: for a single-answer question with a non-empty edited
option list, a save with no checked option is rejected, and any
committed save has exactly one checked option: the edited list splits at
its first checked option, everything before it unchecked, and the
committed list keeps that split with every later option unchecked. -/
theorem c3_single_answer_save (q : QuizQuestion) (text : String)
    (opts : List QuizOption) (hmc : q.isMultipleChoice = false)
    (hne : ¬ opts = []) :
    ((opts.filter (fun o => o.isCorrect)).length = 0 →
        handleSaveChanges q text opts = none) ∧
    (∀ q2, handleSaveChanges q text opts = some q2 →
        (q2.options.filter (fun o => o.isCorrect)).length = 1 ∧
        ∃ pre o post, opts = pre ++ o :: post ∧
          (∀ x ∈ pre, x.isCorrect = false) ∧ o.isCorrect = true ∧
          q2.options = pre ++ o :: post.map (fun x => { x with isCorrect := false })) := by
  constructor
  · intro h0
    by_cases h1 : jsTrim text.data = []
    · rw [handleSaveChanges, if_pos h1]
    · rw [handleSaveChanges, if_neg h1]
      by_cases h2 : opts.any (fun o => jsTrim o.text.data = []) = true
      · rw [if_pos h2]
      · rw [if_neg h2, if_pos h0]
  · intro q2 hq2
    rw [handleSaveChanges] at hq2
    by_cases h1 : jsTrim text.data = []
    · rw [if_pos h1] at hq2; cases hq2
    · rw [if_neg h1] at hq2
      by_cases h2 : opts.any (fun o => jsTrim o.text.data = []) = true
      · rw [if_pos h2] at hq2; cases hq2
      · rw [if_neg h2] at hq2
        by_cases h3 : (opts.filter (fun o => o.isCorrect)).length = 0
        · rw [if_pos h3] at hq2; cases hq2
        · rw [if_neg h3] at hq2
          rcases exists_first_correct opts h3 with ⟨pre, o, post, hdec, hpre, ho, hcnt⟩
          by_cases h4 : 1 < (opts.filter (fun o => o.isCorrect)).length
          · rw [if_pos ⟨hmc, h4⟩] at hq2
            have hq2e : q2 = { q with
                questionText := text,
                options := keepFirstCorrect opts } := (Option.some.inj hq2).symm
            subst hq2e
            have hopt : keepFirstCorrect opts =
                pre ++ o :: post.map (fun x => { x with isCorrect := false }) := by
              rw [hdec]
              exact keepFirstCorrect_decomp pre o post hpre ho
            refine ⟨?_, pre, o, post, hdec, hpre, ho, hopt⟩
            show ((keepFirstCorrect opts).filter (fun o => o.isCorrect)).length = 1
            rw [hopt]
            exact filter_correct_result pre o post hpre ho
          · rw [if_neg (fun hand => h4 hand.2)] at hq2
            have hq2e : q2 = { q with
                questionText := text,
                options := opts } := (Option.some.inj hq2).symm
            subst hq2e
            have hc1 : (opts.filter (fun o => o.isCorrect)).length = 1 := by omega
            have hpost : ∀ x ∈ post, x.isCorrect = false := by
              have h0 : (post.filter (fun o => o.isCorrect)).length = 0 := by
                rw [hc1] at hcnt
                omega
              intro x hx
              have hfn : post.filter (fun o => o.isCorrect) = [] :=
                List.length_eq_zero.mp h0
              have := List.filter_eq_nil_iff.mp hfn x hx
              simpa using this
            refine ⟨hc1, pre, o, post, hdec, hpre, ho, ?_⟩
            show opts = pre ++ o :: post.map (fun x => { x with isCorrect := false })
            rw [map_setFalse_of_all_false post hpost]
            exact hdec

def wOptsTwoCorrect : List QuizOption :=
  { id := "o1", text := "A", isCorrect := true } ::
  { id := "o2", text := "B", isCorrect := true } ::
  { id := "o3", text := "C", isCorrect := false } :: []

def wSingleQ : QuizQuestion :=
  { id := "q1", questionText := "Q", options := wOptsTwoCorrect,
    isMultipleChoice := false }

def wSingleSaved : QuizQuestion :=
  { id := "q1", questionText := "Q",
    options :=
      { id := "o1", text := "A", isCorrect := true } ::
      { id := "o2", text := "B", isCorrect := false } ::
      { id := "o3", text := "C", isCorrect := false } :: [],
    isMultipleChoice := false }

/-- Witness for C3: a single-answer question saved with two checked
options commits with exactly one checked option. -/
theorem c3_single_answer_save_witness :
    handleSaveChanges wSingleQ "Q" wOptsTwoCorrect = some wSingleSaved ∧
    (wSingleSaved.options.filter (fun o => o.isCorrect)).length = 1 :=
  ⟨by decide,
   ((c3_single_answer_save wSingleQ "Q" wOptsTwoCorrect rfl (by decide)).2
      wSingleSaved (by decide)).1⟩

def mcOptsOneCorrect : List QuizOption :=
  { id := "o1", text := "A", isCorrect := true } ::
  { id := "o2", text := "B", isCorrect := false } :: []

def mcQuestion : QuizQuestion :=
  { id := "q1", questionText := "Q", options := mcOptsOneCorrect,
    isMultipleChoice := true }

def mcSaved : QuizQuestion :=
  { id := "q1", questionText := "Q", options := mcOptsOneCorrect,
    isMultipleChoice := true }

/-- Counterexample to C4: the editor commits a multi-answer question
with a single checked option; `handleSaveChanges` only rejects saves
with zero checked options and never enforces the two-correct rule for
multi-answer questions. -/
theorem c4_counterexample :
    handleSaveChanges mcQuestion "Q" mcOptsOneCorrect = some mcSaved ∧
    (mcSaved.options.filter (fun o => o.isCorrect)).length < 2 :=
  ⟨by decide, by decide⟩

/-- Claim C4 amended: a committed save of a multi-answer question has at
least one checked option (zero-checked saves are rejected); the
at-least-two rule is only requested from the model in the prompts, never
enforced by the editor. -/
theorem c4_multi_answer_save (q : QuizQuestion) (text : String)
    (opts : List QuizOption) (hmc : q.isMultipleChoice = true) :
    ∀ q2, handleSaveChanges q text opts = some q2 →
      1 ≤ (q2.options.filter (fun o => o.isCorrect)).length := by
  intro q2 hq2
  rw [handleSaveChanges] at hq2
  by_cases h1 : jsTrim text.data = []
  · rw [if_pos h1] at hq2; cases hq2
  · rw [if_neg h1] at hq2
    by_cases h2 : opts.any (fun o => jsTrim o.text.data = []) = true
    · rw [if_pos h2] at hq2; cases hq2
    · rw [if_neg h2] at hq2
      by_cases h3 : (opts.filter (fun o => o.isCorrect)).length = 0
      · rw [if_pos h3] at hq2; cases hq2
      · rw [if_neg h3] at hq2
        rw [if_neg (fun hand => by rw [hmc] at hand; cases hand.1)] at hq2
        have hq2e : q2 = { q with
            questionText := text,
            options := opts } := (Option.some.inj hq2).symm
        subst hq2e
        show 1 ≤ (opts.filter (fun o => o.isCorrect)).length
        omega

/-- Witness for C4 amended: a committed multi-answer save with two
checked options has at least one checked option. -/
theorem c4_multi_answer_save_witness :
    1 ≤ ((handleSaveChanges
        { id := "q1", questionText := "Q", options := wOptsTwoCorrect,
          isMultipleChoice := true } "Q" wOptsTwoCorrect).getD mcSaved |>.options.filter
          (fun o => o.isCorrect)).length :=
  c4_multi_answer_save
    { id := "q1", questionText := "Q", options := wOptsTwoCorrect,
      isMultipleChoice := true } "Q" wOptsTwoCorrect rfl _ (by decide)

/-- The editing operations available on the option list of the question
editor card. -/
inductive EditOp where
  | textChange (optionId : String) (newText : String) : EditOp
  | correctToggle (optionId : String) : EditOp
  | deleteOpt (optionId : String) : EditOp

/-- Apply one editing operation to the edited option list. -/
def applyEditOp (isMultipleChoice : Bool) (opts : List QuizOption) :
    EditOp → List QuizOption
  | EditOp.textChange oid t => handleOptionTextChange opts oid t
  | EditOp.correctToggle oid => handleOptionCorrectChange isMultipleChoice opts oid
  | EditOp.deleteOpt oid => deleteOption opts oid

lemma modifyAt_length (l : List QuizOption) (i : Nat) (f : QuizOption → QuizOption) :
    (modifyAt l i f).length = l.length := by
  induction l generalizing i with
  | nil => rfl
  | cons a t ih =>
    cases i with
    | zero => rfl
    | succ j => simp [modifyAt, ih j]

lemma modifyAt_map_id (l : List QuizOption) (i : Nat) (f : QuizOption → QuizOption)
    (hf : ∀ x, (f x).id = x.id) :
    (modifyAt l i f).map (fun o => o.id) = l.map (fun o => o.id) := by
  induction l generalizing i with
  | nil => rfl
  | cons a t ih =>
    cases i with
    | zero => simp [modifyAt, hf a]
    | succ j => simp [modifyAt, ih j]

lemma length_filter_ne_of_nodup (opts : List QuizOption) (oid : String)
    (h : (opts.map (fun o => o.id)).Nodup) :
    opts.length ≤ (opts.filter (fun o => ¬ o.id = oid)).length + 1 := by
  induction opts with
  | nil => simp
  | cons a t ih =>
    simp only [List.map_cons, List.nodup_cons] at h
    by_cases ha : a.id = oid
    · have hft : t.filter (fun o => ¬ o.id = oid) = t := by
        apply List.filter_eq_self.mpr
        intro x hx
        simp only [decide_eq_true_eq]
        intro he
        apply h.1
        rw [ha, ← he]
        exact List.mem_map_of_mem _ hx
      rw [List.filter_cons, if_neg (by simp [ha]), hft]
      simp
    · rw [List.filter_cons, if_pos (by simp [ha])]
      simpa using Nat.succ_le_succ (ih h.2)

lemma toggleAt_length (mc : Bool) (opts : List QuizOption) (i : Nat) :
    (toggleAt mc opts i).length = opts.length := by
  rw [toggleAt]
  cases hg : opts.get? i with
  | none => rfl
  | some tgt =>
    show (modifyAt (if mc = false ∧ tgt.isCorrect = false then
        opts.map (fun o => { o with isCorrect := false }) else opts) i
        (fun o => { o with isCorrect := !o.isCorrect })).length = opts.length
    rw [modifyAt_length]
    by_cases hb : mc = false ∧ tgt.isCorrect = false
    · rw [if_pos hb, List.length_map]
    · rw [if_neg hb]

lemma toggleAt_ids (mc : Bool) (opts : List QuizOption) (i : Nat) :
    (toggleAt mc opts i).map (fun o => o.id) = opts.map (fun o => o.id) := by
  rw [toggleAt]
  cases hg : opts.get? i with
  | none => rfl
  | some tgt =>
    show (modifyAt (if mc = false ∧ tgt.isCorrect = false then
        opts.map (fun o => { o with isCorrect := false }) else opts) i
        (fun o => { o with isCorrect := !o.isCorrect })).map (fun o => o.id) =
      opts.map (fun o => o.id)
    rw [modifyAt_map_id _ i (fun o => { o with isCorrect := !o.isCorrect })
      (fun x => rfl)]
    by_cases hb : mc = false ∧ tgt.isCorrect = false
    · rw [if_pos hb, List.map_map]
      rfl
    · rw [if_neg hb]

lemma handleOptionCorrectChange_length (mc : Bool) (opts : List QuizOption)
    (oid : String) :
    (handleOptionCorrectChange mc opts oid).length = opts.length := by
  rw [handleOptionCorrectChange]
  cases opts.findIdx? (fun o => o.id = oid) with
  | none => rfl
  | some i => exact toggleAt_length mc opts i

lemma handleOptionCorrectChange_ids (mc : Bool) (opts : List QuizOption)
    (oid : String) :
    (handleOptionCorrectChange mc opts oid).map (fun o => o.id) =
      opts.map (fun o => o.id) := by
  rw [handleOptionCorrectChange]
  cases opts.findIdx? (fun o => o.id = oid) with
  | none => rfl
  | some i => exact toggleAt_ids mc opts i

lemma applyEditOp_preserves (mc : Bool) (op : EditOp) (opts : List QuizOption)
    (hnd : (opts.map (fun o => o.id)).Nodup) (hlen : 2 ≤ opts.length) :
    2 ≤ (applyEditOp mc opts op).length ∧
      ((applyEditOp mc opts op).map (fun o => o.id)).Nodup := by
  cases op with
  | textChange oid t =>
    have hmap : (handleOptionTextChange opts oid t).map (fun o => o.id) =
        opts.map (fun o => o.id) := by
      rw [handleOptionTextChange, List.map_map]
      apply List.map_congr_left
      intro x _
      by_cases hx : x.id = oid <;> simp [hx]
    refine ⟨?_, ?_⟩
    · show 2 ≤ (handleOptionTextChange opts oid t).length
      rw [handleOptionTextChange, List.length_map]
      exact hlen
    · show ((handleOptionTextChange opts oid t).map (fun o => o.id)).Nodup
      rw [hmap]
      exact hnd
  | correctToggle oid =>
    refine ⟨?_, ?_⟩
    · show 2 ≤ (handleOptionCorrectChange mc opts oid).length
      rw [handleOptionCorrectChange_length]
      exact hlen
    · show ((handleOptionCorrectChange mc opts oid).map (fun o => o.id)).Nodup
      rw [handleOptionCorrectChange_ids]
      exact hnd
  | deleteOpt oid =>
    refine ⟨?_, ?_⟩
    · show 2 ≤ (deleteOption opts oid).length
      rw [deleteOption]
      by_cases hle : opts.length ≤ 2
      · rw [if_pos hle]
        exact hlen
      · rw [if_neg hle]
        have := length_filter_ne_of_nodup opts oid hnd
        omega
    · show ((deleteOption opts oid).map (fun o => o.id)).Nodup
      rw [deleteOption]
      by_cases hle : opts.length ≤ 2
      · rw [if_pos hle]
        exact hnd
      · rw [if_neg hle]
        exact List.Nodup.sublist ((List.filter_sublist _).map _) hnd

/-- Claim C5 amended: `deleteOption` leaves a list of at most two
options unchanged, and otherwise removes exactly the options bearing the
given id, preserving the order of the rest (it is the filter on the id);
and, provided the option ids are pairwise distinct, as they are for
ids generated at creation, every sequence of editing operations keeps an
option list of at least two options at two or more options. -/
theorem c5_delete_option :
    (∀ (opts : List QuizOption) (oid : String), opts.length ≤ 2 →
        deleteOption opts oid = opts) ∧
    (∀ (opts : List QuizOption) (oid : String), 2 < opts.length →
        deleteOption opts oid = opts.filter (fun o => ¬ o.id = oid)) ∧
    (∀ (mc : Bool) (opts : List QuizOption) (ops : List EditOp),
        (opts.map (fun o => o.id)).Nodup → 2 ≤ opts.length →
        2 ≤ (ops.foldl (applyEditOp mc) opts).length) := by
  refine ⟨?_, ?_, ?_⟩
  · intro opts oid h
    rw [deleteOption, if_pos h]
  · intro opts oid h
    rw [deleteOption, if_neg (by omega)]
  · intro mc opts ops
    induction ops generalizing opts with
    | nil => intro _ hlen; exact hlen
    | cons op rest ih =>
      intro hnd hlen
      rcases applyEditOp_preserves mc op opts hnd hlen with ⟨hl2, hnd2⟩
      exact ih (applyEditOp mc opts op) hnd2 hl2

def dupIdOptions : List QuizOption :=
  { id := "a", text := "x", isCorrect := false } ::
  { id := "a", text := "y", isCorrect := false } ::
  { id := "b", text := "z", isCorrect := true } :: []

/-- Counterexample to C5: with a duplicated option id, `deleteOption`
removes two options from a three-option list at once, leaving a single
option, so a list that started with at least two options drops below
two after one editing operation. -/
theorem c5_counterexample :
    2 ≤ dupIdOptions.length ∧
    deleteOption dupIdOptions "a" =
      { id := "b", text := "z", isCorrect := true } :: [] ∧
    (deleteOption dupIdOptions "a").length < 2 :=
  ⟨by decide, by decide, by decide⟩

def distinctIdOptions : List QuizOption :=
  { id := "a", text := "x", isCorrect := false } ::
  { id := "b", text := "y", isCorrect := false } ::
  { id := "c", text := "z", isCorrect := true } :: []

/-- Witness for C5 amended: deleting one of three distinctly-identified
options keeps at least two. -/
theorem c5_delete_option_witness :
    2 ≤ ((EditOp.deleteOpt "a" :: []).foldl (applyEditOp false) distinctIdOptions).length :=
  c5_delete_option.2.2 false distinctIdOptions (EditOp.deleteOpt "a" :: [])
    (by decide) (by decide)

/-- The state of the `App` component that the claims concern: whether
quiz settings exist, the editable quiz, the two loading flags and the
validated flag.  The error message, grounding chunks and regenerating-id
fields only feed the UI and are not modelled. -/
structure AppState where
  hasSettings : Bool
  editableQuiz : List QuizQuestion
  isLoading : Bool
  isAddingMoreQuestions : Bool
  isQuizValidated : Bool
deriving DecidableEq

/-- `handleUpdateQuestion` of `App.tsx`: ignored once the quiz is
validated, otherwise replace the questions bearing the updated id. -/
def handleUpdateQuestion (st : AppState) (updatedQuestion : QuizQuestion) :
    AppState :=
  if st.isQuizValidated = true then st
  else { st with
           editableQuiz := st.editableQuiz.map
             (fun q => if q.id = updatedQuestion.id then updatedQuestion else q) }

/-- `handleDeleteQuestion` of `App.tsx`. -/
def handleDeleteQuestion (st : AppState) (questionId : String) : AppState :=
  if st.isQuizValidated = true then st
  else { st with
           editableQuiz :=
             st.editableQuiz.filter (fun q => ¬ q.id = questionId) }

/-- The quiz-list updater run when a regenerated alternative arrives
(`App.tsx`, lines 75 to 81): splice the new question right after the
original; leave the list unchanged when the original is gone. -/
def insertAlternative (prevQuiz : List QuizQuestion) (originalQuestionId : String)
    (newQuestion : QuizQuestion) : List QuizQuestion :=
  match prevQuiz.findIdx? (fun q => q.id = originalQuestionId) with
  | none => prevQuiz
  | some i => prevQuiz.take (i + 1) ++ newQuestion :: prevQuiz.drop (i + 1)

/-- `handleRegenerateAlternativeQuestion` as a state transformer.  The
asynchronous model call is passed as `result`, `none` meaning a failed
generation; failures only set an error message. -/
def handleRegenerateAlternativeQuestion (st : AppState)
    (originalQuestionId : String) (result : Option QuizQuestion) : AppState :=
  if st.isQuizValidated = true ∨ st.hasSettings = false then st
  else
    match st.editableQuiz.findIdx? (fun q => q.id = originalQuestionId) with
    | none => st
    | some _ =>
      match result with
      | none => st
      | some newQuestion =>
        { st with
            editableQuiz :=
              insertAlternative st.editableQuiz originalQuestionId newQuestion }

/-- `handleAddMoreQuestions` as a state transformer: guarded by the
validated flag, the settings, a non-empty quiz and the loading flags;
a successful non-empty batch is appended.  The bump of the stored
question count is not modelled, no claim concerns it. -/
def handleAddMoreQuestions (st : AppState)
    (newQuestions : Option (List QuizQuestion)) : AppState :=
  if st.isQuizValidated = true ∨ st.hasSettings = false ∨
      st.editableQuiz = [] ∨ st.isLoading = true ∨
      st.isAddingMoreQuestions = true then st
  else
    match newQuestions with
    | some nqs =>
      if ¬ nqs = [] then { st with editableQuiz := st.editableQuiz ++ nqs }
      else st
    | none => st

/-- `handleValidateQuiz` of `App.tsx`: refuse an empty quiz, refuse a
quiz with a question without a checked option, otherwise set the
validated flag.  The quiz list itself is never touched. -/
def handleValidateQuiz (st : AppState) : AppState :=
  if st.editableQuiz = [] then st
  else if st.editableQuiz.all (fun q => q.options.any (fun o => o.isCorrect)) then
    { st with isQuizValidated := true }
  else st

/-- Claim C7: when the regenerated alternative for the question at the
first index bearing the requested id arrives, it is inserted right after
that index; every earlier question keeps its position, the original is
kept, every later question is shifted back by exactly one; when no
question bears the id any more, the list is unchanged. -/
theorem c7_insert_after (quiz : List QuizQuestion) (qid : String)
    (nq : QuizQuestion) :
    ((∀ q ∈ quiz, ¬ q.id = qid) → insertAlternative quiz qid nq = quiz) ∧
    (∀ i (hi : i < quiz.length), (quiz.get ⟨i, hi⟩).id = qid →
        (∀ j (hj : j < i), ¬ (quiz.get ⟨j, Nat.lt_trans hj hi⟩).id = qid) →
        (insertAlternative quiz qid nq).length = quiz.length + 1 ∧
        (∀ j, j ≤ i → (insertAlternative quiz qid nq)[j]? = quiz[j]?) ∧
        (insertAlternative quiz qid nq)[i + 1]? = some nq ∧
        (∀ j, i < j → (insertAlternative quiz qid nq)[j + 1]? = quiz[j]?)) := by
  constructor
  · intro h
    rw [insertAlternative]
    rw [List.findIdx?_eq_none_iff.mpr
      (fun x hx => by simp only [decide_eq_false_iff_not]; exact h x hx)]
  · intro i hi hpi hprev
    have hfi : quiz.findIdx? (fun q => q.id = qid) = some i := by
      rw [List.findIdx?_eq_some_iff_getElem]
      refine ⟨hi, by simpa using hpi, ?_⟩
      intro j hj
      simpa using hprev j hj
    have hins : insertAlternative quiz qid nq =
        quiz.take (i + 1) ++ nq :: quiz.drop (i + 1) := by
      rw [insertAlternative, hfi]
    have htl : (quiz.take (i + 1)).length = i + 1 := by
      simp
      omega
    refine ⟨?_, ?_, ?_, ?_⟩
    · rw [hins, List.length_append, htl, List.length_cons, List.length_drop]
      omega
    · intro j hj
      rw [hins, List.getElem?_append_left (by rw [htl]; omega),
        List.getElem?_take_of_lt (by omega)]
    · rw [hins, List.getElem?_append_right (Nat.le_of_eq htl), htl]
      simp
    · intro j hj
      rw [hins, List.getElem?_append_right (by rw [htl]; omega), htl]
      rw [show j + 1 - (i + 1) = (j - i - 1) + 1 from by omega,
        List.getElem?_cons_succ, List.getElem?_drop,
        show i + 1 + (j - i - 1) = j from by omega]

def wQ1 : QuizQuestion :=
  { id := "q1", questionText := "A", options := [], isMultipleChoice := false }

def wQ2 : QuizQuestion :=
  { id := "q2", questionText := "B", options := [], isMultipleChoice := false }

def wQNew : QuizQuestion :=
  { id := "q3", questionText := "C", options := [], isMultipleChoice := false }

/-- Witness for C7: inserting after the first question of a two-question
quiz grows it to three questions. -/
theorem c7_insert_after_witness :
    (insertAlternative (wQ1 :: wQ2 :: []) "q1" wQNew).length =
      (wQ1 :: wQ2 :: []).length + 1 :=
  ((c7_insert_after (wQ1 :: wQ2 :: []) "q1" wQNew).2 0 (by decide) (by decide)
    (fun j hj => absurd hj (Nat.not_lt_zero j))).1

/-- Claim C8: the update operation keeps the length of the quiz,
replaces exactly the questions whose id matches the updated question,
keeps every other question unchanged at its position, and does nothing
once the quiz is validated. -/
theorem c8_update_question (st : AppState) (u : QuizQuestion) :
    (handleUpdateQuestion st u).editableQuiz.length = st.editableQuiz.length ∧
    (st.isQuizValidated = false →
        ∀ (i : Nat), (handleUpdateQuestion st u).editableQuiz[i]? =
          (st.editableQuiz[i]?).map (fun q => if q.id = u.id then u else q)) ∧
    (st.isQuizValidated = false →
        ∀ (i : Nat) (q : QuizQuestion), st.editableQuiz[i]? = some q →
        ¬ q.id = u.id → (handleUpdateQuestion st u).editableQuiz[i]? = some q) ∧
    (st.isQuizValidated = true → handleUpdateQuestion st u = st) := by
  by_cases hv : st.isQuizValidated = true
  · rw [handleUpdateQuestion, if_pos hv]
    refine ⟨rfl, ?_, ?_, fun _ => rfl⟩
    · intro hf
      rw [hf] at hv
      cases hv
    · intro hf
      rw [hf] at hv
      cases hv
  · rw [handleUpdateQuestion, if_neg hv]
    refine ⟨?_, ?_, ?_, ?_⟩
    · show (st.editableQuiz.map _).length = _
      rw [List.length_map]
    · intro _ i
      show (st.editableQuiz.map _)[i]? = _
      rw [List.getElem?_map]
    · intro _ i q hq hne
      show (st.editableQuiz.map _)[i]? = _
      rw [List.getElem?_map, hq]
      simp only [Option.map_some']
      rw [if_neg hne]
    · intro hf
      exact absurd hf hv

def vState : AppState :=
  { hasSettings := true, editableQuiz := wQ1 :: [], isLoading := false,
    isAddingMoreQuestions := false, isQuizValidated := true }

/-- Witness for C8: updating a validated quiz leaves the state
unchanged. -/
theorem c8_update_question_witness : handleUpdateQuestion vState wQ2 = vState :=
  (c8_update_question vState wQ2).2.2.2 rfl

/-- Claim C10: starting from an unvalidated state, validation sets the
flag exactly when the quiz is non-empty and every question has a checked
option; the quiz list is never touched; when a condition fails nothing
changes at all; and a validated state disables update, delete,
regeneration and batch addition. -/
theorem c10_validate_quiz (st : AppState) (h : st.isQuizValidated = false) :
    ((handleValidateQuiz st).isQuizValidated = true ↔
        ¬ st.editableQuiz = [] ∧
        ∀ q ∈ st.editableQuiz, ∃ o ∈ q.options, o.isCorrect = true) ∧
    (handleValidateQuiz st).editableQuiz = st.editableQuiz ∧
    (¬ (¬ st.editableQuiz = [] ∧
        ∀ q ∈ st.editableQuiz, ∃ o ∈ q.options, o.isCorrect = true) →
      handleValidateQuiz st = st) ∧
    (∀ st2 : AppState, st2.isQuizValidated = true →
        (∀ u, handleUpdateQuestion st2 u = st2) ∧
        (∀ qid, handleDeleteQuestion st2 qid = st2) ∧
        (∀ qid r, handleRegenerateAlternativeQuestion st2 qid r = st2) ∧
        (∀ nqs, handleAddMoreQuestions st2 nqs = st2)) := by
  have hdis : ∀ st2 : AppState, st2.isQuizValidated = true →
      (∀ u, handleUpdateQuestion st2 u = st2) ∧
      (∀ qid, handleDeleteQuestion st2 qid = st2) ∧
      (∀ qid r, handleRegenerateAlternativeQuestion st2 qid r = st2) ∧
      (∀ nqs, handleAddMoreQuestions st2 nqs = st2) := by
    intro st2 hv2
    refine ⟨?_, ?_, ?_, ?_⟩
    · intro u
      rw [handleUpdateQuestion, if_pos hv2]
    · intro qid
      rw [handleDeleteQuestion, if_pos hv2]
    · intro qid r
      rw [handleRegenerateAlternativeQuestion.eq_def, if_pos (Or.inl hv2)]
    · intro nqs
      rw [handleAddMoreQuestions.eq_def, if_pos (Or.inl hv2)]
  by_cases he : st.editableQuiz = []
  · rw [handleValidateQuiz, if_pos he]
    refine ⟨?_, rfl, fun _ => rfl, hdis⟩
    rw [h]
    constructor
    · intro hf
      cases hf
    · intro hand
      exact absurd he hand.1
  · rw [handleValidateQuiz, if_neg he]
    by_cases ha : st.editableQuiz.all (fun q => q.options.any (fun o => o.isCorrect)) = true
    · rw [if_pos ha]
      have hr : ¬ st.editableQuiz = [] ∧
          ∀ q ∈ st.editableQuiz, ∃ o ∈ q.options, o.isCorrect = true := by
        refine ⟨he, ?_⟩
        intro q hq
        have hqa := (List.all_eq_true.mp ha) q hq
        rcases List.any_eq_true.mp hqa with ⟨o, ho, hoc⟩
        exact ⟨o, ho, by simpa using hoc⟩
      refine ⟨?_, rfl, ?_, hdis⟩
      · exact iff_of_true rfl hr
      · intro hcon
        exact absurd hr hcon
    · rw [if_neg ha]
      refine ⟨?_, rfl, fun _ => rfl, hdis⟩
      rw [h]
      constructor
      · intro hf
        cases hf
      · intro hand
        apply absurd _ ha
        rw [List.all_eq_true]
        intro q hq
        rcases hand.2 q hq with ⟨o, ho, hoc⟩
        rw [List.any_eq_true]
        exact ⟨o, ho, by simp [hoc]⟩

def wAppState : AppState :=
  { hasSettings := true,
    editableQuiz :=
      { id := "q1", questionText := "Q",
        options :=
          { id := "o1", text := "A", isCorrect := true } ::
          { id := "o2", text := "B", isCorrect := false } :: [],
        isMultipleChoice := false } :: [],
    isLoading := false, isAddingMoreQuestions := false,
    isQuizValidated := false }

/-- Witness for C10: validating a one-question quiz whose question has a
checked option sets the validated flag. -/
theorem c10_validate_quiz_witness :
    (handleValidateQuiz wAppState).isQuizValidated = true :=
  ((c10_validate_quiz wAppState rfl).1).mpr ⟨by decide, by decide⟩
